import Mathlib

/-!
# Verification of the audio-feature pipeline mocks

A shallow embedding of the in-memory pipeline components of the repository
(`mocks/rabbitmq.py`, `mocks/data_writer.py`, `mocks/algorithm_a.py`,
`mocks/algorithm_b.py`) together with proofs and refutations of the
specification's claims about them.

Messages are Python dicts with string keys; we embed them as association
lists from `String` to a value type `JVal`.  String values keep their exact
contents.  The opaque `features` payloads are floating-point dictionaries
computed by `_extract_features` / `_derive_features`; both are deterministic
functions of, respectively, the base64 seed of `audio_data` and the
`features` entry of the input record, so the embedding represents each
payload by the data that determines it (`featA seed`, `featB src`).  No
claim inspects the numeric contents of a payload, only equality,
provenance and determinism, which this representation preserves exactly.
-/

/-- A Python value occurring in pipeline messages: a string, a Feature-A
payload (determined by the integer seed `_extract_features` derives from
`audio_data`), or a Feature-B payload (determined by the `features` value of
the Feature-A record handed to `_derive_features`). -/
inductive JVal where
  | s (v : String)
  | featA (seed : Nat)
  | featB (src : JVal)
deriving DecidableEq, Repr

/-- A Python dict with string keys, as the pipeline uses them: an
association list.  All dicts built by the code have pairwise-distinct keys. -/
abbrev Msg := List (String × JVal)

/-- `d[k]` as a total lookup: `some v` when the key is present (first
occurrence), `none` where Python would raise `KeyError`. -/
def dget (m : Msg) (k : String) : Option JVal :=
  m.lookup k

/-- `d.get(k, default)` restricted to the string reading of the value.
This is a spec-side helper used only inside the composite filter
predicate `matchesFilters` and in theorems about stores whose present
values are strings; for a key that is absent it is Python's `get`
default, faithfully.  The embedded `query` itself models the exception a
present non-string value causes in an order comparison (see `pyGe` and
`pyLeStop`), so this helper never stands in for a raising path. -/
def dgetStr (m : Msg) (k : String) (dfl : String) : String :=
  match m.lookup k with
  | some (.s v) => v
  | _ => dfl

/-- `k in d`. -/
def hasKey (m : Msg) (k : String) : Bool :=
  (m.lookup k).isSome

/-- Python string `≤` is lexicographic on code points. -/
def pyLeChars : List Char → List Char → Bool
  | [], _ => true
  | _ :: _, [] => false
  | c :: cs, d :: ds =>
    if c = d then pyLeChars cs ds else decide (c.toNat < d.toNat)

/-- `a <= b` on Python strings (code-point lexicographic order). -/
def pyLe (a b : String) : Bool :=
  pyLeChars a.data b.data

/-- Truthiness of an `Optional[str]` argument: `None` and `""` are falsy. -/
def truthy : Option String → Bool
  | none => false
  | some v => !v.isEmpty

/-- The Python exceptions the embedded code can raise.  The stages raise
`ValueError` for malformed input (the specification's ValidationError;
`binascii.Error` from a failed base64 decode is a `ValueError` subclass)
and `TypeError` for a wrong discriminator tag or an ill-typed comparison
(TypeMismatchError); `AttributeError` stands for attribute access on a
value of the wrong Python type; `KeyError` for `d[k]` on a missing key. -/
inductive PyErr where
  | valueError
  | typeError
  | attributeError
  | keyError
deriving DecidableEq, Repr

namespace DataWriter

/-- The duplicate scan of `_write`:
`any(r["message_id"] == message["message_id"] for r in self.db)`.
Each iteration evaluates `r["message_id"]` first, then
`message["message_id"]`; either access raises `KeyError` (`.error`),
aborting the scan.  On an empty store the generator never runs, so a
missing key in `message` is not noticed here. -/
def scanDup : List Msg → Msg → Except Unit Bool
  | [], _ => .ok false
  | r :: t, message =>
    match dget r "message_id" with
    | none => .error ()
    | some vr =>
      match dget message "message_id" with
      | none => .error ()
      | some vm => if vr == vm then .ok true else scanDup t message

/-- `DataWriter._write` (mocks/data_writer.py:37-50).  The result pairs
the returned Boolean (`none` when the call raises `KeyError`) with the
store after the call.  Three paths: the duplicate scan raises before any
mutation; a detected duplicate returns `False` unchanged; otherwise
`self.db.append(dict(message))` runs first and only then does the
`logger.debug` call evaluate `message["message_id"]` eagerly — so a
keyless message reaching the append (possible only on an empty store)
is stored and *then* the call raises. -/
def write (db : List Msg) (message : Msg) : Option Bool × List Msg :=
  match scanDup db message with
  | .error () => (none, db)
  | .ok true => (some false, db)
  | .ok false =>
    match dget message "message_id" with
    | none => (none, db ++ [message])
    | some _ => (some true, db ++ [message])

/-- The store after a sequence of `_write` calls (each call's `KeyError`,
if any, is the caller's to handle; the store evolution is `.2`). -/
def writeAll (db : List Msg) (msgs : List Msg) : List Msg :=
  msgs.foldl (fun acc m => (write acc m).2) db

/-- The store invariant of claim C1: no two stored records share a
`message_id` (a record that lacks the key counts as sharing with another
keyless record; at most one such record is ever reachable). -/
def storeWF (db : List Msg) : Prop :=
  (db.map (fun r => dget r "message_id")).Nodup

/-- Python's `r.get("timestamp", "") >= start`: a missing key compares
as `""`; a present string compares lexicographically; a present
non-string value raises `TypeError` from the `>=`. -/
def pyGe : Option JVal → String → Except PyErr Bool
  | some (.s v), bound => .ok (pyLe bound v)
  | some _, _ => .error .typeError
  | none, bound => .ok (pyLe bound "")

/-- Python's `r.get("timestamp", "") <= end`, with the same `TypeError`
on a present non-string value. -/
def pyLeStop : Option JVal → String → Except PyErr Bool
  | some (.s v), bound => .ok (pyLe v bound)
  | some _, _ => .error .typeError
  | none, bound => .ok (pyLe "" bound)

/-- A Python list comprehension over a fallible predicate: elements are
tested left to right and the first raising element aborts the whole
comprehension (no partial result; the source list is unchanged). -/
def filterE (p : Msg → Except PyErr Bool) : List Msg → Except PyErr (List Msg)
  | [] => .ok []
  | x :: t =>
    match p x with
    | .error e => .error e
    | .ok true => (filterE p t).map (fun l => x :: l)
    | .ok false => filterE p t

/-- The first two stages of `query` — the `feature_type` and `sensor_id`
equality filters, which never raise (`==` is total in Python).  Named so
theorems can speak about the intermediate list; definitionally equal to
the corresponding `let` chain inside `query`. -/
def eqStages (db : List Msg) (featureType sensorId : Option String) : List Msg :=
  let res := db
  let res := if truthy featureType then
      res.filter (fun r => dget r "feature_type" == some (.s (featureType.getD "")))
    else res
  if truthy sensorId then
    res.filter (fun r => dget r "sensor_id" == some (.s (sensorId.getD "")))
  else res

/-- `DataWriter.query` (mocks/data_writer.py:70-96): the four optional
filters applied in sequence over a snapshot of the store.  Python's
`if feature_type:` treats `None` and `""` alike, so each filter applies
only when truthy.  The two equality filters never raise; the two bound
filters compare `r.get("timestamp", "")` with the bound and raise
`TypeError` when a record carries a present non-string timestamp, which
makes `query` fallible. -/
def query (db : List Msg) (featureType sensorId start stop : Option String) :
    Except PyErr (List Msg) :=
  let res := db
  let res := if truthy featureType then
      res.filter (fun r => dget r "feature_type" == some (.s (featureType.getD "")))
    else res
  let res := if truthy sensorId then
      res.filter (fun r => dget r "sensor_id" == some (.s (sensorId.getD "")))
    else res
  match (if truthy start then
      filterE (fun r => pyGe (dget r "timestamp") (start.getD "")) res
    else .ok res) with
  | .error e => .error e
  | .ok res =>
    if truthy stop then
      filterE (fun r => pyLeStop (dget r "timestamp") (stop.getD "")) res
    else .ok res

/-- The conjunction of the supplied filters, as one predicate. -/
def matchesFilters (featureType sensorId start stop : Option String) (r : Msg) : Bool :=
  (!truthy featureType || dget r "feature_type" == some (.s (featureType.getD ""))) &&
  (!truthy sensorId || dget r "sensor_id" == some (.s (sensorId.getD ""))) &&
  (!truthy start || pyLe (start.getD "") (dgetStr r "timestamp" "")) &&
  (!truthy stop || pyLe (dgetStr r "timestamp" "") (stop.getD ""))

/-- `hasId db v` holds when some stored record carries `message_id = v`:
the duplicate test inside `_write`. -/
def hasId (db : List Msg) (v : JVal) : Bool :=
  db.any (fun r => dget r "message_id" == some v)

/-- Number of stored records carrying `message_id = v`. -/
def countId (db : List Msg) (v : JVal) : Nat :=
  (db.filter (fun r => dget r "message_id" == some v)).length

/-- Spec-side definition, for the refinement comparison of claim C6 only:
the spec asserts query results are "ordered by timestamp ascending". -/
def specOrderedByTimestamp (l : List Msg) : Prop :=
  l.Pairwise (fun a b => pyLe (dgetStr a "timestamp" "") (dgetStr b "timestamp" "") = true)

end DataWriter

/-! ## The in-memory broker (`mocks/rabbitmq.py`)

`InMemoryBroker` holds a dict of work queues (`asyncio.Queue` each) and a
dict of fan-out topics, each a list of per-subscriber `asyncio.Queue`s.
A subscriber keeps a direct reference to its queue object, which outlives
`purge_all` (the broker merely forgets it), so the state keeps every queue
ever handed out in `inboxes` and the fan-out map stores indices into it. -/

/-- Update-or-insert on an association list; an existing key keeps its
position, a new key is appended — exactly a Python dict assignment. -/
def aset {α : Type} : List (String × α) → String → α → List (String × α)
  | [], k, v => [(k, v)]
  | (k', v') :: t, k, v =>
    if k' = k then (k, v) :: t else (k', v') :: aset t k v

/-- Apply `f` to the element at index `i`, if any. -/
def modifyAt {α : Type} : List α → Nat → (α → α) → List α
  | [], _, _ => []
  | x :: t, 0, f => f x :: t
  | x :: t, i + 1, f => x :: modifyAt t i f

/-- Queue/topic name constants of `mocks/rabbitmq.py`. -/
def AUDIO_STREAM : String := "audio_stream"

/-- Fan-out topic for Feature-A records. -/
def FEATURES_A : String := "features_a"

/-- Fan-out topic for Feature-B records. -/
def FEATURES_B : String := "features_b"

/-- The broker state: named work queues, the pool of every subscriber
queue ever created (`asyncio.Queue` objects, indexed by creation order),
and the fan-out map from topic to the indices of its subscriber queues. -/
structure Broker where
  work : List (String × List Msg)
  inboxes : List (List Msg)
  fanout : List (String × List Nat)
deriving DecidableEq, Repr

namespace Broker

/-- The freshly constructed broker (`InMemoryBroker.__init__`). -/
def init : Broker := ⟨[], [], []⟩

/-- Contents of a work queue; `[]` when the queue does not exist yet. -/
def lookupQ (b : Broker) (q : String) : List Msg :=
  (b.work.lookup q).getD []

/-- Subscriber indices of a fan-out topic; `[]` for an unknown topic. -/
def lookupT (b : Broker) (t : String) : List Nat :=
  (b.fanout.lookup t).getD []

/-- `publish_work` (rabbitmq.py:41-46): create the queue lazily, then
enqueue the message at the tail. -/
def publishWork (b : Broker) (q : String) (m : Msg) : Broker :=
  { b with work := aset b.work q (b.lookupQ q ++ [m]) }

/-- `consume_work` with `timeout=0` (rabbitmq.py:48-64): create the queue
lazily, then remove and return the head, or return `None` when empty
(`QueueEmpty` is caught).  The positive-timeout path only adds a bounded
real-time wait before the same two outcomes and is not modelled. -/
def consumeWork (b : Broker) (q : String) : Option Msg × Broker :=
  match b.lookupQ q with
  | [] => (none, { b with work := aset b.work q [] })
  | m :: rest => (some m, { b with work := aset b.work q rest })

/-- `work_queue_depth` (rabbitmq.py:66-70). -/
def workQueueDepth (b : Broker) (q : String) : Nat :=
  (b.lookupQ q).length

/-- `subscribe_fanout` (rabbitmq.py:76-87): create a fresh empty
subscriber queue, append it to the topic's list, and return it (here: its
index into `inboxes`). -/
def subscribeFanout (b : Broker) (t : String) : Nat × Broker :=
  (b.inboxes.length,
   { b with
     inboxes := b.inboxes ++ [[]],
     fanout := aset b.fanout t (b.lookupT t ++ [b.inboxes.length]) })

/-- Deliver one copy of `m` to each of the listed subscriber queues. -/
def pushAll (ids : List Nat) (m : Msg) (inbs : List (List Msg)) :
    List (List Msg) :=
  ids.foldl (fun acc i => modifyAt acc i (· ++ [m])) inbs

/-- `publish_fanout` (rabbitmq.py:89-94): put a copy of the message on
every queue currently subscribed to the topic; an unknown topic has no
subscriber list (`get(topic, [])`), so the message is dropped. -/
def publishFanout (b : Broker) (t : String) (m : Msg) : Broker :=
  { b with inboxes := pushAll (b.lookupT t) m b.inboxes }

/-- `fanout_subscriber_count` (rabbitmq.py:96-98). -/
def fanoutSubscriberCount (b : Broker) (t : String) : Nat :=
  (b.lookupT t).length

/-- `purge_all` (rabbitmq.py:104-108): reset both the work-queue dict and
the fan-out dict.  Subscriber queue objects held by consumers survive, but
the broker no longer delivers to them. -/
def purgeAll (b : Broker) : Broker :=
  { b with work := [], fanout := [] }

/-- Removing the head of subscriber queue `i` directly
(`inbox.get_nowait()`, as `AlgorithmB.process_one` and
`DataWriter.flush` do). -/
def popInbox (b : Broker) (i : Nat) : Option Msg × Broker :=
  match b.inboxes.getD i [] with
  | [] => (none, b)
  | m :: rest => (some m, { b with inboxes := modifyAt b.inboxes i (fun _ => rest) })

/-- Well-formedness of the broker's fan-out registry, true of every
reachable state: a queue subscribes at most once per topic, no queue is
subscribed to two topics (`subscribe_fanout` always creates a fresh
queue), and every registered index refers to an existing queue. -/
def WF (b : Broker) : Prop :=
  (∀ t, (b.lookupT t).Nodup) ∧
  (∀ t t', t ≠ t' → (b.lookupT t).Disjoint (b.lookupT t')) ∧
  (∀ t i, i ∈ b.lookupT t → i < b.inboxes.length)

end Broker

/-- A broker operation, for stating trace properties. -/
inductive BOp where
  | pubW (q : String) (m : Msg)
  | consW (q : String)
  | subF (t : String)
  | pubF (t : String) (m : Msg)
deriving DecidableEq, Repr

/-- Effect of one operation on the broker state. -/
def applyOp (b : Broker) : BOp → Broker
  | .pubW q m => b.publishWork q m
  | .consW q => (b.consumeWork q).2
  | .subF t => (b.subscribeFanout t).2
  | .pubF t m => b.publishFanout t m

/-- Run a sequence of broker operations. -/
def runOps (b : Broker) (ops : List BOp) : Broker :=
  ops.foldl applyOp b

/-- The messages a sequence of operations publishes to topic `t`, in
publish order. -/
def pubsTo (t : String) (ops : List BOp) : List Msg :=
  ops.filterMap (fun op =>
    match op with
    | .pubF t' m => if t' = t then some m else none
    | _ => none)

/-- Publish a batch of messages to one work queue, in order. -/
def publishAll (b : Broker) (q : String) (msgs : List Msg) : Broker :=
  msgs.foldl (fun acc m => acc.publishWork q m) b

/-- `k` successive `consume_work(q, timeout=0)` calls, collecting the
delivered messages; consumers stop at the first empty result.  Which
competing consumer issues each call is immaterial: the deliveries listed
here are the union of what all of them receive. -/
def drainK (b : Broker) (q : String) : Nat → List Msg × Broker
  | 0 => ([], b)
  | k + 1 =>
    match b.consumeWork q with
    | (none, b1) => ([], b1)
    | (some m, b1) =>
      let (ms, b2) := drainK b1 q k
      (m :: ms, b2)


/-! ## Algorithm stages (`mocks/algorithm_a.py`, `mocks/algorithm_b.py`) -/

/-- Value of a base64 alphabet character (`A-Z a-z 0-9 + /`); padding and
foreign characters are discarded, as `binascii.a2b_base64` does in its
default non-strict mode. -/
def b64Val (c : Char) : Option Nat :=
  if 'A' ≤ c ∧ c ≤ 'Z' then some (c.toNat - 65)
  else if 'a' ≤ c ∧ c ≤ 'z' then some (c.toNat - 97 + 26)
  else if '0' ≤ c ∧ c ≤ '9' then some (c.toNat - 48 + 52)
  else if c = '+' then some 62
  else if c = '/' then some 63
  else none

/-- Reassemble decoded bytes from the 6-bit groups: four sextets yield
three bytes, a trailing three yield two, a trailing two yield one.  (On a
single trailing sextet `b64decode` raises a padding error; no claim
evaluates the seed on such input, and the model yields no byte there.) -/
def b64Bytes : List Nat → List Nat
  | a :: b :: c :: d :: rest =>
    (a * 4 + b / 16) :: (b % 16 * 16 + c / 4) :: (c % 4 * 64 + d) :: b64Bytes rest
  | [a, b, c] => [a * 4 + b / 16, b % 16 * 16 + c / 4]
  | [a, b] => [a * 4 + b / 16]
  | _ => []

/-- Whether `base64.b64decode(audio_data + "==")` succeeds.  It raises
`ValueError` when the string is not pure ASCII (`str.encode("ascii")`
fails) and `binascii.Error` — a `ValueError` subclass — when the number
of data characters is one more than a multiple of 4 ("Invalid padding",
e.g. `audio_data = "Q"`); `_validate` checks neither, so
`AlgorithmA.process` can raise after validation passed.  (A padding
character *inside* `audio_data` makes the stdlib decoder stop early,
a corner no pipeline input exercises and not modelled.) -/
def b64Decodable (audio : String) : Bool :=
  audio.data.all (fun c => c.toNat < 128) &&
    ((audio ++ "==").data.filterMap b64Val).length % 4 != 1

/-- The deterministic seed of `_extract_features` (algorithm_a.py:36-48):
`sum(base64.b64decode(audio_data + "==")) % 1000`, defined on decodable
input. -/
def seedOf (audio : String) : Nat :=
  (b64Bytes ((audio ++ "==").data.filterMap b64Val)).sum % 1000

/-- `_extract_features(audio_data)`: the four-entry float dictionary (13
`mfcc` sines, `spectral_centroid`, `zero_crossing_rate`, `rms_energy`) is
a fixed function of the seed; the payload is embedded by that seed. -/
def extractFeatures (audio : String) : JVal :=
  .featA (seedOf audio)

/-- `_derive_features(feature_a)` (algorithm_b.py:35-50) reads only the
`features` entry of its argument (`mfcc`, `spectral_centroid`,
`rms_energy`, each with a default); its float output is a fixed function
of that value, and the payload is embedded by it. -/
def deriveFeatures (featuresVal : JVal) : JVal :=
  .featB featuresVal

/-- `str.replace("Z", "+00:00")` on the character list. -/
def replaceZ : List Char → List Char
  | [] => []
  | c :: rest =>
    if c = 'Z' then '+' :: '0' :: '0' :: ':' :: '0' :: '0' :: replaceZ rest
    else c :: replaceZ rest

/-- Numeric value of a digit string (only applied to all-digit lists). -/
def digitsVal (cs : List Char) : Nat :=
  cs.foldl (fun n c => 10 * n + (c.toNat - 48)) 0

/-- Gregorian leap-year rule, as `datetime` applies it. -/
def isoLeap (y : Nat) : Bool :=
  y % 4 == 0 && (y % 100 != 0 || y % 400 == 0)

/-- Days in a month, as `datetime` validates the day component. -/
def isoDaysInMonth (y m : Nat) : Nat :=
  if m == 2 then (if isoLeap y then 29 else 28)
  else if m == 4 || m == 6 || m == 9 || m == 11 then 30
  else 31

/-- Optional timezone suffix `±HH:MM[:SS[.ffffff]]` of an ISO-8601 string
(the only offset shapes the pipeline produces or tests). -/
def isoTz : List Char → Bool
  | [] => true
  | sign :: rest =>
    (sign = '+' || sign = '-') &&
    match rest with
    | h1 :: h2 :: ':' :: m1 :: m2 :: rest2 =>
      h1.isDigit && h2.isDigit && m1.isDigit && m2.isDigit &&
      digitsVal [h1, h2] < 24 && digitsVal [m1, m2] < 60 &&
      match rest2 with
      | [] => true
      | ':' :: s1 :: s2 :: rest3 =>
        s1.isDigit && s2.isDigit && digitsVal [s1, s2] < 60 &&
        match rest3 with
        | [] => true
        | '.' :: ds => !ds.isEmpty && ds.all Char.isDigit
        | _ => false
      | _ => false
    | _ => false

/-- Fractional seconds then timezone: `[.ffff…][±HH:MM…]`. -/
def isoFracTz (cs : List Char) : Bool :=
  match cs with
  | '.' :: ds =>
    let frac := ds.takeWhile Char.isDigit
    !frac.isEmpty && isoTz (ds.dropWhile Char.isDigit)
  | ',' :: ds =>
    let frac := ds.takeWhile Char.isDigit
    !frac.isEmpty && isoTz (ds.dropWhile Char.isDigit)
  | other => isoTz other

/-- Time-of-day part `HH[:MM[:SS[.ffff…]]]` with range checks, followed by
an optional timezone. -/
def isoTime : List Char → Bool
  | h1 :: h2 :: rest =>
    h1.isDigit && h2.isDigit && digitsVal [h1, h2] < 24 &&
    match rest with
    | ':' :: m1 :: m2 :: rest2 =>
      m1.isDigit && m2.isDigit && digitsVal [m1, m2] < 60 &&
      match rest2 with
      | ':' :: s1 :: s2 :: rest3 =>
        s1.isDigit && s2.isDigit && digitsVal [s1, s2] < 60 && isoFracTz rest3
      | other => isoTz other
    | other => isoTz other
  | _ => false

/-- `datetime.fromisoformat` as `_validate` uses it: `YYYY-MM-DD`, then
optionally any single separator character and a time-of-day with optional
timezone.  Component ranges are validated (month 1-12, day against the
month, hour/minute/second bounds, year ≥ 1). -/
def pyFromIso (s : String) : Bool :=
  match s.data with
  | y1 :: y2 :: y3 :: y4 :: '-' :: m1 :: m2 :: '-' :: d1 :: d2 :: rest =>
    ([y1, y2, y3, y4] ++ [m1, m2] ++ [d1, d2]).all Char.isDigit &&
    1 ≤ digitsVal [y1, y2, y3, y4] &&
    1 ≤ digitsVal [m1, m2] && digitsVal [m1, m2] ≤ 12 &&
    1 ≤ digitsVal [d1, d2] &&
    digitsVal [d1, d2] ≤ isoDaysInMonth (digitsVal [y1, y2, y3, y4]) (digitsVal [m1, m2]) &&
    match rest with
    | [] => true
    | _sep :: timeChars => isoTime timeChars
  | _ => false

/-- Truthiness of a field value: Python's `not value` for the value types
occurring here (`""` is falsy; the feature payloads stand for non-empty
dicts, which are truthy). -/
def jvalFalsy : JVal → Bool
  | .s v => v.isEmpty
  | _ => false

/-- `algorithm_a._validate` (algorithm_a.py:24-33): require the four audio
fields, a truthy `audio_data`, and a parsable timestamp.  A non-string
timestamp raises `AttributeError` from `.replace`, which the source
catches and converts to `ValueError` alongside the parse failure. -/
def validateA (message : Msg) : Except PyErr Unit :=
  if !(hasKey message "message_id" && hasKey message "sensor_id" &&
       hasKey message "timestamp" && hasKey message "audio_data") then
    .error .valueError
  else if jvalFalsy ((dget message "audio_data").getD (.s "")) then
    .error .valueError
  else
    match dget message "timestamp" with
    | some (.s ts) =>
      if pyFromIso ⟨replaceZ ts.data⟩ then .ok () else .error .valueError
    | _ => .error .valueError

/-- `AlgorithmA.process` (algorithm_a.py:63-77): validate, then build the
Feature-A record.  `uuid` and `now` stand for the freshly generated
`uuid4()` and `datetime.now()` values.  `base64.b64decode` of a
non-string `audio_data` raises `TypeError`, and of a non-decodable
string raises a `ValueError` (see `b64Decodable`) — validation rejects
neither, so both escape from `process` itself. -/
def processA (uuid now : String) (message : Msg) : Except PyErr Msg :=
  match validateA message with
  | .error e => .error e
  | .ok _ =>
  match dget message "audio_data" with
  | some (.s audio) =>
    if b64Decodable audio then
      .ok [("message_id", .s uuid),
           ("source_message_id", (dget message "message_id").getD (.s "")),
           ("feature_type", .s "A"),
           ("sensor_id", (dget message "sensor_id").getD (.s "")),
           ("timestamp", (dget message "timestamp").getD (.s "")),
           ("processed_at", .s now),
           ("features", extractFeatures audio)]
    else .error .valueError
  | _ => .error .typeError

/-- `algorithm_b._validate` (algorithm_b.py:25-33): require the five
Feature-A fields (`ValueError` when any is missing), then require the
discriminator `feature_type == "A"` (`TypeError` otherwise; a non-string
value is simply unequal to `"A"`). -/
def validateB (message : Msg) : Except PyErr Unit :=
  if !(hasKey message "message_id" && hasKey message "sensor_id" &&
       hasKey message "timestamp" && hasKey message "feature_type" &&
       hasKey message "features") then
    .error .valueError
  else if dget message "feature_type" != some (.s "A") then
    .error .typeError
  else
    .ok ()

/-- `AlgorithmB.process` (algorithm_b.py:68-82): validate, then build the
Feature-B record.  `_derive_features` calls `.get` on the `features`
value, raising `AttributeError` when it is a string rather than a dict. -/
def processB (uuid now : String) (message : Msg) : Except PyErr Msg :=
  match validateB message with
  | .error e => .error e
  | .ok _ =>
  match dget message "features" with
  | some (.s _) => .error .attributeError
  | some fv =>
    .ok [("message_id", .s uuid),
         ("source_message_id", (dget message "message_id").getD (.s "")),
         ("feature_type", .s "B"),
         ("sensor_id", (dget message "sensor_id").getD (.s "")),
         ("timestamp", (dget message "timestamp").getD (.s "")),
         ("processed_at", .s now),
         ("features", deriveFeatures fv)]
  | none => .error .attributeError

/-- State of one `AlgorithmA` instance: the shared broker, the
`processed_count`, and the index of the next fresh `uuid4()` /
`datetime.now()` pair to draw from the generator arguments. -/
structure StA where
  broker : Broker
  count : Nat
  fresh : Nat
deriving DecidableEq, Repr

/-- `AlgorithmA.process_one` (algorithm_a.py:79-94): consume one message
from the `audio_stream` work queue (`None` when empty), process it, and
only on success publish to `features_a` and bump the counter.  A
processing exception propagates; the state then reflects exactly the
consume that already happened. -/
def processOneA (uuidGen nowGen : Nat → String) (st : StA) :
    Except PyErr (Option Msg) × StA :=
  match st.broker.consumeWork AUDIO_STREAM with
  | (none, b1) => (.ok none, { st with broker := b1 })
  | (some m, b1) =>
    match processA (uuidGen st.fresh) (nowGen st.fresh) m with
    | .error e => (.error e, { st with broker := b1 })
    | .ok rec =>
      (.ok (some rec),
       { broker := b1.publishFanout FEATURES_A rec,
         count := st.count + 1,
         fresh := st.fresh + 1 })

/-- State of one `AlgorithmB` instance: the shared broker, the index of
the subscriber queue obtained from `subscribe_fanout(FEATURES_A)` at
construction, the `processed_count`, and the fresh-value index. -/
structure StB where
  broker : Broker
  inbox : Nat
  count : Nat
  fresh : Nat
deriving DecidableEq, Repr

/-- `AlgorithmB.process_one` (algorithm_b.py:84-102): pop the head of this
instance's own subscriber queue (`None` when empty), process it, and only
on success publish to `features_b` and bump the counter. -/
def processOneB (uuidGen nowGen : Nat → String) (st : StB) :
    Except PyErr (Option Msg) × StB :=
  match st.broker.popInbox st.inbox with
  | (none, b1) => (.ok none, { st with broker := b1 })
  | (some m, b1) =>
    match processB (uuidGen st.fresh) (nowGen st.fresh) m with
    | .error e => (.error e, { st with broker := b1 })
    | .ok rec =>
      (.ok (some rec),
       { st with
         broker := b1.publishFanout FEATURES_B rec,
         count := st.count + 1,
         fresh := st.fresh + 1 })

/-- Drop the two freshly generated fields, for the determinism claim. -/
def dropFresh (r : Msg) : Msg :=
  r.filter (fun kv => !(kv.1 == "message_id" || kv.1 == "processed_at"))

/-! ## Association-list and indexed-update lemmas -/

theorem lookup_aset_self {α : Type} (l : List (String × α)) (k : String) (v : α) :
    (aset l k v).lookup k = some v := by
  induction l with
  | nil => simp [aset]
  | cons p t ih =>
    obtain ⟨k', v'⟩ := p
    by_cases h : k' = k
    · simp [aset, h, List.lookup]
    · have hb : (k == k') = false := beq_eq_false_iff_ne.mpr (Ne.symm h)
      simp [aset, h, List.lookup, hb, ih]

theorem lookup_aset_ne {α : Type} (l : List (String × α)) (k k' : String) (v : α)
    (h : k' ≠ k) : (aset l k v).lookup k' = l.lookup k' := by
  have hb : (k' == k) = false := beq_eq_false_iff_ne.mpr h
  induction l with
  | nil => simp [aset, List.lookup, hb]
  | cons p t ih =>
    obtain ⟨k₀, v₀⟩ := p
    by_cases h0 : k₀ = k
    · subst h0
      simp [aset, List.lookup, hb]
    · simp [aset, h0, List.lookup, ih]

theorem length_modifyAt {α : Type} (l : List α) (i : Nat) (f : α → α) :
    (modifyAt l i f).length = l.length := by
  induction l generalizing i with
  | nil => rfl
  | cons x t ih =>
    cases i with
    | zero => rfl
    | succ j => simp [modifyAt, ih]

theorem getD_modifyAt_self {α : Type} (l : List α) (i : Nat) (f : α → α) (d : α)
    (h : i < l.length) : (modifyAt l i f).getD i d = f (l.getD i d) := by
  induction l generalizing i with
  | nil => simp at h
  | cons x t ih =>
    cases i with
    | zero => rfl
    | succ j =>
      simp only [modifyAt, List.getD_cons_succ]
      exact ih j (by simpa using h)

theorem getD_modifyAt_ne {α : Type} (l : List α) (i j : Nat) (f : α → α) (d : α)
    (h : i ≠ j) : (modifyAt l j f).getD i d = l.getD i d := by
  induction l generalizing i j with
  | nil => rfl
  | cons x t ih =>
    cases j with
    | zero =>
      cases i with
      | zero => exact absurd rfl h
      | succ i' => rfl
    | succ j' =>
      cases i with
      | zero => rfl
      | succ i' =>
        simp only [modifyAt, List.getD_cons_succ]
        exact ih i' j' (by omega)

theorem pushAll_nil (m : Msg) (inbs : List (List Msg)) :
    Broker.pushAll [] m inbs = inbs := rfl

theorem pushAll_cons (j : Nat) (t : List Nat) (m : Msg) (inbs : List (List Msg)) :
    Broker.pushAll (j :: t) m inbs =
      Broker.pushAll t m (modifyAt inbs j (· ++ [m])) := rfl

theorem length_pushAll (ids : List Nat) (m : Msg) (inbs : List (List Msg)) :
    (Broker.pushAll ids m inbs).length = inbs.length := by
  induction ids generalizing inbs with
  | nil => rfl
  | cons i t ih =>
    rw [pushAll_cons, ih, length_modifyAt]

theorem getD_pushAll_not_mem {ids : List Nat} {i : Nat} (m : Msg)
    (inbs : List (List Msg)) (h : i ∉ ids) :
    (Broker.pushAll ids m inbs).getD i [] = inbs.getD i [] := by
  induction ids generalizing inbs with
  | nil => rfl
  | cons j t ih =>
    rw [pushAll_cons,
        ih _ (fun hm => h (List.mem_cons_of_mem j hm)),
        getD_modifyAt_ne _ _ _ _ _
          (fun hij => h (by rw [hij]; exact List.mem_cons_self j t))]

theorem getD_pushAll_mem {ids : List Nat} {i : Nat} (m : Msg)
    (inbs : List (List Msg)) (hnd : ids.Nodup) (hmem : i ∈ ids)
    (hlt : i < inbs.length) :
    (Broker.pushAll ids m inbs).getD i [] = inbs.getD i [] ++ [m] := by
  induction ids generalizing inbs with
  | nil => simp at hmem
  | cons j t ih =>
    rw [pushAll_cons]
    rcases List.mem_cons.mp hmem with hij | hit
    · subst hij
      rw [getD_pushAll_not_mem _ _ (List.nodup_cons.mp hnd).1,
          getD_modifyAt_self _ _ _ _ hlt]
    · have hij : i ≠ j := fun h => (List.nodup_cons.mp hnd).1 (h ▸ hit)
      rw [ih _ (List.nodup_cons.mp hnd).2 hit
            (by rw [length_modifyAt]; exact hlt),
          getD_modifyAt_ne _ _ _ _ _ hij]

/-! ## DataWriter lemmas -/

theorem filter_opt {α : Type} (t : Bool) (P : α → Bool) (l : List α) :
    (if t then l.filter P else l) = l.filter (fun a => !t || P a) := by
  cases t <;> simp

theorem pyLe_to_empty_false (s : String) (h : s ≠ "") : pyLe s "" = false := by
  unfold pyLe
  cases hd : s.data with
  | nil => exact absurd (String.ext (hd.trans rfl)) h
  | cons c cs => rfl

theorem pyLe_empty_left (s : String) : pyLe "" s = true := rfl

theorem emptyStr_isEmpty : "".isEmpty = true := rfl

theorem dgetStr_of_none {r : Msg} {k : String} (h : dget r k = none) (dfl : String) :
    dgetStr r k dfl = dfl := by
  unfold dgetStr
  unfold dget at h
  rw [h]

theorem filterE_cons (p : Msg → Except PyErr Bool) (x : Msg) (t : List Msg) :
    DataWriter.filterE p (x :: t) =
      match p x with
      | .error e => .error e
      | .ok true => (DataWriter.filterE p t).map (fun l => x :: l)
      | .ok false => DataWriter.filterE p t := rfl

theorem filterE_eq_filter {p : Msg → Except PyErr Bool} {q : Msg → Bool}
    (l : List Msg) (h : ∀ x ∈ l, p x = .ok (q x)) :
    DataWriter.filterE p l = .ok (l.filter q) := by
  induction l with
  | nil => rfl
  | cons x t ih =>
    have hx := h x (List.mem_cons_self x t)
    have ht := ih (fun y hy => h y (List.mem_cons_of_mem _ hy))
    cases hq : q x with
    | true =>
      rw [hq] at hx
      rw [filterE_cons, hx, ht]
      simp [Except.map, List.filter_cons, hq]
    | false =>
      rw [hq] at hx
      rw [filterE_cons, hx, ht]
      simp [List.filter_cons, hq]

theorem filterE_ok_sub {p : Msg → Except PyErr Bool} :
    ∀ {l res : List Msg}, DataWriter.filterE p l = .ok res →
    ∀ x ∈ res, x ∈ l ∧ p x = .ok true := by
  intro l
  induction l with
  | nil =>
    intro res h x hx
    simp only [DataWriter.filterE, Except.ok.injEq] at h
    subst h
    simp at hx
  | cons y t ih =>
    intro res h x hx
    rw [filterE_cons] at h
    rcases hp : p y with e | b
    · rw [hp] at h
      exact absurd h (by simp)
    · rw [hp] at h
      cases b with
      | true =>
        rcases hft : DataWriter.filterE p t with e' | res'
        · rw [hft] at h
          exact absurd h (by simp [Except.map])
        · rw [hft] at h
          simp only [Except.map, Except.ok.injEq] at h
          subst h
          rcases List.mem_cons.mp hx with rfl | hx'
          · exact ⟨List.mem_cons_self _ _, hp⟩
          · obtain ⟨h1, h2⟩ := ih hft x hx'
            exact ⟨List.mem_cons_of_mem _ h1, h2⟩
      | false =>
        obtain ⟨h1, h2⟩ := ih h x hx
        exact ⟨List.mem_cons_of_mem _ h1, h2⟩

theorem mem_filterE_ok {p : Msg → Except PyErr Bool} :
    ∀ {l res : List Msg}, DataWriter.filterE p l = .ok res →
    ∀ {x : Msg}, x ∈ l → p x = .ok true → x ∈ res := by
  intro l
  induction l with
  | nil =>
    intro res h x hx
    simp at hx
  | cons y t ih =>
    intro res h x hx hpx
    rw [filterE_cons] at h
    rcases List.mem_cons.mp hx with rfl | hxt
    · rw [hpx] at h
      rcases hft : DataWriter.filterE p t with e' | res'
      · rw [hft] at h
        exact absurd h (by simp [Except.map])
      · rw [hft] at h
        simp only [Except.map, Except.ok.injEq] at h
        subst h
        exact List.mem_cons_self _ _
    · rcases hp : p y with e | b
      · rw [hp] at h
        exact absurd h (by simp)
      · rw [hp] at h
        cases b with
        | true =>
          rcases hft : DataWriter.filterE p t with e' | res'
          · rw [hft] at h
            exact absurd h (by simp [Except.map])
          · rw [hft] at h
            simp only [Except.map, Except.ok.injEq] at h
            subst h
            exact List.mem_cons_of_mem _ (ih hft hxt hpx)
        | false =>
          exact ih h hxt hpx

theorem mem_filter_if {α : Type} {P : Prop} [Decidable P] {l : List α}
    {p : α → Bool} {x : α} (h : x ∈ if P then l.filter p else l) :
    x ∈ l ∧ (P → p x = true) := by
  split at h
  · exact ⟨(List.mem_filter.mp h).1, fun _ => (List.mem_filter.mp h).2⟩
  · next hnp => exact ⟨h, fun hp => absurd hp hnp⟩

theorem pyGe_wellTyped {r : Msg} (bound : String)
    (h : ∀ v, dget r "timestamp" = some v → ∃ s, v = JVal.s s) :
    DataWriter.pyGe (dget r "timestamp") bound =
      .ok (pyLe bound (dgetStr r "timestamp" "")) := by
  rcases hv : dget r "timestamp" with - | v
  · rw [dgetStr_of_none hv]
    rfl
  · obtain ⟨s, rfl⟩ := h v hv
    have hs : dgetStr r "timestamp" "" = s := by
      unfold dgetStr
      unfold dget at hv
      rw [hv]
    rw [hs]
    rfl

theorem pyLeStop_wellTyped {r : Msg} (bound : String)
    (h : ∀ v, dget r "timestamp" = some v → ∃ s, v = JVal.s s) :
    DataWriter.pyLeStop (dget r "timestamp") bound =
      .ok (pyLe (dgetStr r "timestamp" "") bound) := by
  rcases hv : dget r "timestamp" with - | v
  · rw [dgetStr_of_none hv]
    rfl
  · obtain ⟨s, rfl⟩ := h v hv
    have hs : dgetStr r "timestamp" "" = s := by
      unfold dgetStr
      unfold dget at hv
      rw [hv]
    rw [hs]
    rfl

theorem eqStages_mem {db : List Msg} {ft sid : Option String} {r : Msg}
    (hr : r ∈ DataWriter.eqStages db ft sid) :
    r ∈ db ∧
    (truthy ft = true →
      (dget r "feature_type" == some (JVal.s (ft.getD ""))) = true) ∧
    (truthy sid = true →
      (dget r "sensor_id" == some (JVal.s (sid.getD ""))) = true) := by
  unfold DataWriter.eqStages at hr
  have h2 := mem_filter_if hr
  have h1 := mem_filter_if h2.1
  exact ⟨h1.1, h1.2, h2.2⟩

theorem query_unfold (db : List Msg) (ft sid st en : Option String) :
    DataWriter.query db ft sid st en =
      (match (if truthy st then
          DataWriter.filterE
            (fun r => DataWriter.pyGe (dget r "timestamp") (st.getD ""))
            (DataWriter.eqStages db ft sid)
        else .ok (DataWriter.eqStages db ft sid)) with
       | .error e => .error e
       | .ok res =>
         if truthy en then
           DataWriter.filterE
             (fun r => DataWriter.pyLeStop (dget r "timestamp") (en.getD "")) res
         else .ok res) := rfl

theorem query_eq_filter (db : List Msg) (ft sid st en : Option String)
    (hWT : ∀ r ∈ db, ∀ v, dget r "timestamp" = some v → ∃ s, v = JVal.s s) :
    DataWriter.query db ft sid st en =
      .ok (db.filter (DataWriter.matchesFilters ft sid st en)) := by
  have hWT2 : ∀ r ∈ DataWriter.eqStages db ft sid,
      ∀ v, dget r "timestamp" = some v → ∃ s, v = JVal.s s :=
    fun r hr => hWT r (eqStages_mem hr).1
  rw [query_unfold]
  have hst : (if truthy st then
      DataWriter.filterE
        (fun r => DataWriter.pyGe (dget r "timestamp") (st.getD ""))
        (DataWriter.eqStages db ft sid)
    else .ok (DataWriter.eqStages db ft sid)) =
      .ok (if truthy st then
        (DataWriter.eqStages db ft sid).filter
          (fun r => pyLe (st.getD "") (dgetStr r "timestamp" ""))
      else DataWriter.eqStages db ft sid) := by
    by_cases h : truthy st = true
    · rw [if_pos h, if_pos h]
      exact filterE_eq_filter _ (fun x hx => pyGe_wellTyped _ (hWT2 x hx))
    · rw [if_neg h, if_neg h]
  rw [hst]
  have hWT3 : ∀ r ∈ (if truthy st then
      (DataWriter.eqStages db ft sid).filter
        (fun r => pyLe (st.getD "") (dgetStr r "timestamp" ""))
    else DataWriter.eqStages db ft sid),
      ∀ v, dget r "timestamp" = some v → ∃ s, v = JVal.s s :=
    fun r hr => hWT2 r (mem_filter_if hr).1
  show (if truthy en then
      DataWriter.filterE
        (fun r => DataWriter.pyLeStop (dget r "timestamp") (en.getD ""))
        (if truthy st then
          (DataWriter.eqStages db ft sid).filter
            (fun r => pyLe (st.getD "") (dgetStr r "timestamp" ""))
        else DataWriter.eqStages db ft sid)
    else .ok (if truthy st then
      (DataWriter.eqStages db ft sid).filter
        (fun r => pyLe (st.getD "") (dgetStr r "timestamp" ""))
    else DataWriter.eqStages db ft sid)) =
      .ok (db.filter (DataWriter.matchesFilters ft sid st en))
  have hen : (if truthy en then
      DataWriter.filterE
        (fun r => DataWriter.pyLeStop (dget r "timestamp") (en.getD ""))
        (if truthy st then
          (DataWriter.eqStages db ft sid).filter
            (fun r => pyLe (st.getD "") (dgetStr r "timestamp" ""))
        else DataWriter.eqStages db ft sid)
    else .ok (if truthy st then
      (DataWriter.eqStages db ft sid).filter
        (fun r => pyLe (st.getD "") (dgetStr r "timestamp" ""))
    else DataWriter.eqStages db ft sid)) =
      .ok (if truthy en then
        (if truthy st then
          (DataWriter.eqStages db ft sid).filter
            (fun r => pyLe (st.getD "") (dgetStr r "timestamp" ""))
        else DataWriter.eqStages db ft sid).filter
          (fun r => pyLe (dgetStr r "timestamp" "") (en.getD ""))
      else if truthy st then
        (DataWriter.eqStages db ft sid).filter
          (fun r => pyLe (st.getD "") (dgetStr r "timestamp" ""))
      else DataWriter.eqStages db ft sid) := by
    by_cases h : truthy en = true
    · rw [if_pos h, if_pos h]
      exact filterE_eq_filter _ (fun x hx => pyLeStop_wellTyped _ (hWT3 x hx))
    · rw [if_neg h, if_neg h]
  rw [hen]
  congr 1
  simp only [DataWriter.eqStages]
  rw [filter_opt, filter_opt, filter_opt, filter_opt,
      List.filter_filter, List.filter_filter, List.filter_filter]
  apply List.filter_congr
  intro r _
  simp only [DataWriter.matchesFilters]
  cases (!truthy ft || dget r "feature_type" == some (.s (ft.getD ""))) <;>
    cases (!truthy sid || dget r "sensor_id" == some (.s (sid.getD ""))) <;>
      cases (!truthy st || pyLe (st.getD "") (dgetStr r "timestamp" "")) <;>
        cases (!truthy en || pyLe (dgetStr r "timestamp" "") (en.getD "")) <;>
          rfl

theorem query_ok_mem {db : List Msg} {ft sid st en : Option String}
    {res : List Msg} (h : DataWriter.query db ft sid st en = .ok res)
    {r : Msg} (hr : r ∈ res) :
    r ∈ db ∧
    (truthy ft = true →
      (dget r "feature_type" == some (JVal.s (ft.getD ""))) = true) ∧
    (truthy sid = true →
      (dget r "sensor_id" == some (JVal.s (sid.getD ""))) = true) ∧
    (truthy st = true →
      DataWriter.pyGe (dget r "timestamp") (st.getD "") = .ok true) ∧
    (truthy en = true →
      DataWriter.pyLeStop (dget r "timestamp") (en.getD "") = .ok true) := by
  rw [query_unfold] at h
  rcases hs : (if truthy st then
      DataWriter.filterE
        (fun r => DataWriter.pyGe (dget r "timestamp") (st.getD ""))
        (DataWriter.eqStages db ft sid)
    else .ok (DataWriter.eqStages db ft sid)) with e | res3
  · rw [hs] at h
    exact absurd h (by simp)
  · rw [hs] at h
    have h4 : (if truthy en then
        DataWriter.filterE
          (fun r => DataWriter.pyLeStop (dget r "timestamp") (en.getD "")) res3
      else .ok res3) = .ok res := h
    have hmem3 : r ∈ res3 ∧
        (truthy en = true →
          DataWriter.pyLeStop (dget r "timestamp") (en.getD "") = .ok true) := by
      by_cases he : truthy en = true
      · rw [if_pos he] at h4
        obtain ⟨h1, h2⟩ := filterE_ok_sub h4 r hr
        exact ⟨h1, fun _ => h2⟩
      · rw [if_neg he] at h4
        simp only [Except.ok.injEq] at h4
        subst h4
        exact ⟨hr, fun hc => absurd hc he⟩
    have hmem2 : r ∈ DataWriter.eqStages db ft sid ∧
        (truthy st = true →
          DataWriter.pyGe (dget r "timestamp") (st.getD "") = .ok true) := by
      by_cases hst : truthy st = true
      · rw [if_pos hst] at hs
        obtain ⟨h1, h2⟩ := filterE_ok_sub hs r hmem3.1
        exact ⟨h1, fun _ => h2⟩
      · rw [if_neg hst] at hs
        simp only [Except.ok.injEq] at hs
        subst hs
        exact ⟨hmem3.1, fun hc => absurd hc hst⟩
    obtain ⟨h1, h2, h3⟩ := eqStages_mem hmem2.1
    exact ⟨h1, h2, h3, hmem2.2, hmem3.2⟩

theorem scanDup_cons (r : Msg) (t : List Msg) (m : Msg) :
    DataWriter.scanDup (r :: t) m =
      (match dget r "message_id" with
       | none => .error ()
       | some vr =>
         match dget m "message_id" with
         | none => .error ()
         | some vm =>
           if vr == vm then .ok true else DataWriter.scanDup t m) := rfl

theorem scanDup_keyed (db : List Msg) (m : Msg) (v : JVal)
    (hdb : ∀ r ∈ db, (dget r "message_id").isSome = true)
    (hm : dget m "message_id" = some v) :
    DataWriter.scanDup db m = .ok (DataWriter.hasId db v) := by
  induction db with
  | nil => rfl
  | cons r t ih =>
    obtain ⟨vr, hvr⟩ :=
      Option.isSome_iff_exists.mp (hdb r (List.mem_cons_self r t))
    rw [scanDup_cons, hvr, hm]
    show (if vr == v then Except.ok true else DataWriter.scanDup t m) =
        Except.ok (DataWriter.hasId (r :: t) v)
    cases hvv : vr == v with
    | true =>
      have hh : DataWriter.hasId (r :: t) v = true := by
        simp [DataWriter.hasId, hvr, hvv]
      rw [hh]
      rfl
    | false =>
      have hh : DataWriter.hasId (r :: t) v = DataWriter.hasId t v := by
        simp [DataWriter.hasId, hvr, hvv]
      rw [hh]
      show DataWriter.scanDup t m = Except.ok (DataWriter.hasId t v)
      exact ih (fun r' hr' => hdb r' (List.mem_cons_of_mem _ hr'))

theorem write_keyed_eq (db : List Msg) (m : Msg) (v : JVal)
    (hdb : ∀ r ∈ db, (dget r "message_id").isSome = true)
    (hm : dget m "message_id" = some v) :
    DataWriter.write db m =
      (some (!DataWriter.hasId db v),
       if DataWriter.hasId db v then db else db ++ [m]) := by
  unfold DataWriter.write
  rw [scanDup_keyed db m v hdb hm]
  cases hid : DataWriter.hasId db v with
  | true => rfl
  | false =>
    rw [hm]
    rfl

theorem scanDup_ok_false_none {db : List Msg} {m : Msg}
    (h : DataWriter.scanDup db m = .ok false)
    (hm : dget m "message_id" = none) : db = [] := by
  cases db with
  | nil => rfl
  | cons r t =>
    rw [scanDup_cons] at h
    rcases hr : dget r "message_id" with - | vr
    · rw [hr] at h
      exact absurd h (by simp)
    · rw [hr, hm] at h
      exact absurd h (by simp)

theorem scanDup_ok_false_keys {m : Msg} :
    ∀ {db : List Msg}, DataWriter.scanDup db m = .ok false →
    ∀ r ∈ db, (dget r "message_id").isSome = true ∧
      dget r "message_id" ≠ dget m "message_id" := by
  intro db
  induction db with
  | nil =>
    intro h r hr
    simp at hr
  | cons r0 t ih =>
    intro h r hr
    rw [scanDup_cons] at h
    rcases hr0 : dget r0 "message_id" with - | vr0
    · rw [hr0] at h
      exact absurd h (by simp)
    · rw [hr0] at h
      rcases hm : dget m "message_id" with - | vm
      · rw [hm] at h
        exact absurd h (by simp)
      · rw [hm] at h
        have h' : (if vr0 == vm then Except.ok true
            else DataWriter.scanDup t m) = Except.ok false := h
        cases hvv : vr0 == vm with
        | true =>
          rw [hvv] at h'
          simp at h'
        | false =>
          rw [hvv] at h'
          have h'' : DataWriter.scanDup t m = Except.ok false := h'
          rcases List.mem_cons.mp hr with rfl | hrt
          · refine ⟨by rw [hr0]; rfl, ?_⟩
            rw [hr0]
            intro he
            have := Option.some.inj he
            rw [this] at hvv
            simp at hvv
          · have hh := ih h'' r hrt
            rw [hm] at hh
            exact hh

theorem storeWF_write1 (db : List Msg) (m : Msg) (h : DataWriter.storeWF db) :
    DataWriter.storeWF (DataWriter.write db m).2 := by
  unfold DataWriter.write
  rcases hs : DataWriter.scanDup db m with u | b
  · exact h
  · cases b with
    | true => exact h
    | false =>
      rcases hm : dget m "message_id" with - | vm
      · have hnil := scanDup_ok_false_none hs hm
        subst hnil
        show DataWriter.storeWF [m]
        simp [DataWriter.storeWF]
      · show DataWriter.storeWF (db ++ [m])
        unfold DataWriter.storeWF at h ⊢
        rw [List.map_append, List.nodup_append]
        refine ⟨h, by simp, ?_⟩
        intro x hx hx'
        simp only [List.map_cons, List.map_nil, List.mem_singleton] at hx'
        subst hx'
        obtain ⟨r, hrmem, hrv⟩ := List.mem_map.mp hx
        obtain ⟨-, hne⟩ := scanDup_ok_false_keys hs r hrmem
        exact hne hrv

theorem storeWF_writeAll (msgs : List Msg) (db : List Msg)
    (h : DataWriter.storeWF db) :
    DataWriter.storeWF (DataWriter.writeAll db msgs) := by
  induction msgs generalizing db with
  | nil => exact h
  | cons m t ih =>
    simp only [DataWriter.writeAll, List.foldl_cons]
    exact ih (DataWriter.write db m).2 (storeWF_write1 db m h)

/-! ## Claim C1 -/

/-- **C1** (confirmed).  Writer store uniqueness and idempotent write:
on a store of keyed records, `_write` returns `True` exactly when no
stored record carries the incoming `message_id` (and then appends the
record), `False` on a detected duplicate; any sequence of writes —
including ones whose `KeyError` paths append first (the
eagerly-evaluated `logger.debug` argument) — preserves the store
invariant that no two stored records share a `message_id`; and writing
twice with the same `message_id` leaves exactly one stored record with
it. -/
theorem c1_writer_store_unique_idempotent :
    (∀ (db : List Msg) (m : Msg) (v : JVal),
      (∀ r ∈ db, (dget r "message_id").isSome = true) →
      dget m "message_id" = some v →
      DataWriter.write db m =
        (some (!DataWriter.hasId db v),
         if DataWriter.hasId db v then db else db ++ [m])) ∧
    (∀ (db msgs : List Msg), DataWriter.storeWF db →
      DataWriter.storeWF (DataWriter.writeAll db msgs)) ∧
    (∀ (db : List Msg) (m m' : Msg) (v : JVal),
      (∀ r ∈ db, (dget r "message_id").isSome = true) →
      dget m "message_id" = some v → dget m' "message_id" = some v →
      DataWriter.hasId db v = false →
      DataWriter.countId (DataWriter.writeAll db [m, m']) v = 1) := by
  refine ⟨write_keyed_eq, fun db msgs h => storeWF_writeAll msgs db h, ?_⟩
  intro db m m' v hdb hm hm' hno
  have h1 : DataWriter.write db m = (some true, db ++ [m]) := by
    rw [write_keyed_eq db m v hdb hm, hno]
    simp
  have hdb1 : ∀ r ∈ db ++ [m], (dget r "message_id").isSome = true := by
    intro r hr
    rcases List.mem_append.mp hr with h' | h'
    · exact hdb r h'
    · simp only [List.mem_singleton] at h'
      subst h'
      rw [hm]
      rfl
  have h2 : DataWriter.hasId (db ++ [m]) v = true := by
    unfold DataWriter.hasId
    rw [List.any_append]
    simp [hm]
  have h3 : DataWriter.write (db ++ [m]) m' = (some false, db ++ [m]) := by
    rw [write_keyed_eq _ m' v hdb1 hm', h2]
    simp
  simp only [DataWriter.writeAll, List.foldl_cons, List.foldl_nil, h1, h3]
  unfold DataWriter.countId
  rw [List.filter_append]
  have hfe : db.filter (fun r => dget r "message_id" == some v) = [] :=
    List.filter_eq_nil.mpr (by
      unfold DataWriter.hasId at hno
      exact List.any_eq_false.mp hno)
  rw [hfe]
  simp [hm]

/-- Witness for C1: on an empty store, writing a record succeeds, and
writing the same `message_id` twice stores exactly one record. -/
theorem c1_witness :
    DataWriter.write [] [("message_id", JVal.s "m1")] =
      (some true, [[("message_id", JVal.s "m1")]]) ∧
    DataWriter.countId
        (DataWriter.writeAll []
          [[("message_id", JVal.s "m1")], [("message_id", JVal.s "m1")]])
        (JVal.s "m1") = 1 := by
  constructor
  · have h := c1_writer_store_unique_idempotent.1 []
      [("message_id", JVal.s "m1")] (JVal.s "m1")
      (fun r hr => absurd hr (List.not_mem_nil r)) rfl
    simpa using h
  · exact c1_writer_store_unique_idempotent.2.2 [] _ _ (JVal.s "m1")
      (fun r hr => absurd hr (List.not_mem_nil r)) rfl rfl rfl

/-! ## Claim C6 -/

/-- **C6 counterexample**: the in-memory `query` does *not* order results
by timestamp ascending.  Two records stored late-timestamp-first come back
in insertion order from an unfiltered query, which is not ascending. -/
theorem c6_counterexample :
    DataWriter.query
        [[("message_id", JVal.s "m2"), ("timestamp", JVal.s "2024-01-15T12:00:00+00:00")],
         [("message_id", JVal.s "m1"), ("timestamp", JVal.s "2024-01-15T08:00:00+00:00")]]
        none none none none =
      .ok [[("message_id", JVal.s "m2"), ("timestamp", JVal.s "2024-01-15T12:00:00+00:00")],
           [("message_id", JVal.s "m1"), ("timestamp", JVal.s "2024-01-15T08:00:00+00:00")]] ∧
    ¬ DataWriter.specOrderedByTimestamp
        [[("message_id", JVal.s "m2"), ("timestamp", JVal.s "2024-01-15T12:00:00+00:00")],
         [("message_id", JVal.s "m1"), ("timestamp", JVal.s "2024-01-15T08:00:00+00:00")]] := by
  refine ⟨rfl, fun hord => ?_⟩
  have h := (List.pairwise_cons.mp hord).1 _ (List.mem_cons_self _ _)
  revert h
  decide

/-- **C6 (amended)**: on a store whose present timestamp values are
strings (every record the pipeline writes), `query` returns exactly the
stored records satisfying the conjunction of the supplied (truthy)
filters, in storage (insertion) order — not sorted by timestamp; with no
filter supplied it returns the whole store unconditionally.  (Only the
PostgreSQL adapter adds `ORDER BY timestamp`; a present non-string
timestamp makes the bound comparisons raise `TypeError`, as the `query`
embedding records.) -/
theorem c6_query_conjunction_insertion_order :
    (∀ (db : List Msg) (ft sid st en : Option String),
      (∀ r ∈ db, ∀ v, dget r "timestamp" = some v → ∃ s, v = JVal.s s) →
      DataWriter.query db ft sid st en =
        .ok (db.filter (DataWriter.matchesFilters ft sid st en))) ∧
    (∀ db : List Msg, DataWriter.query db none none none none = .ok db) :=
  ⟨query_eq_filter, fun _ => rfl⟩

/-- Witness for C6: a one-record, string-timestamped store queried with a
`feature_type` filter returns exactly that matching record. -/
theorem c6_witness :
    DataWriter.query
        [[("feature_type", JVal.s "A"), ("timestamp", JVal.s "2024-01-15T08:00:00+00:00")]]
        (some "A") none none none =
      .ok [[("feature_type", JVal.s "A"), ("timestamp", JVal.s "2024-01-15T08:00:00+00:00")]] :=
  c6_query_conjunction_insertion_order.1
    [[("feature_type", JVal.s "A"), ("timestamp", JVal.s "2024-01-15T08:00:00+00:00")]]
    (some "A") none none none
    (by
      intro r hr v hv
      simp only [List.mem_singleton] at hr
      subst hr
      have hv' : some (JVal.s "2024-01-15T08:00:00+00:00") = some v := hv
      exact ⟨"2024-01-15T08:00:00+00:00", (Option.some.inj hv').symm⟩)

/-! ## Claim C10 -/

/-- **C10** (confirmed).  Query filter edge cases of the in-memory writer:
an empty-string filter argument acts as if the filter were absent (Python
truthiness); whenever `query` returns at all, an equality filter on
`feature_type` / `sensor_id` excludes records lacking that field and a
`start` bound excludes records lacking a timestamp; and an `end` bound
keeps a record without a timestamp (the missing timestamp compares as
`""`, which every string bound dominates). -/
theorem c10_query_edge_cases :
    (∀ (db : List Msg) (sid st en : Option String),
      DataWriter.query db (some "") sid st en = DataWriter.query db none sid st en) ∧
    (∀ (db : List Msg) (ft st en : Option String),
      DataWriter.query db ft (some "") st en = DataWriter.query db ft none st en) ∧
    (∀ (db : List Msg) (ft sid en : Option String),
      DataWriter.query db ft sid (some "") en = DataWriter.query db ft sid none en) ∧
    (∀ (db : List Msg) (ft sid st : Option String),
      DataWriter.query db ft sid st (some "") = DataWriter.query db ft sid st none) ∧
    (∀ (db : List Msg) (ftv : String) (sid st en : Option String)
        (res : List Msg) (r : Msg),
      ftv ≠ "" → dget r "feature_type" = none →
      DataWriter.query db (some ftv) sid st en = .ok res → r ∉ res) ∧
    (∀ (db : List Msg) (sv : String) (ft st en : Option String)
        (res : List Msg) (r : Msg),
      sv ≠ "" → dget r "sensor_id" = none →
      DataWriter.query db ft (some sv) st en = .ok res → r ∉ res) ∧
    (∀ (db : List Msg) (stv : String) (ft sid en : Option String)
        (res : List Msg) (r : Msg),
      stv ≠ "" → dget r "timestamp" = none →
      DataWriter.query db ft sid (some stv) en = .ok res → r ∉ res) ∧
    (∀ (db : List Msg) (env : String) (ft sid : Option String)
        (res0 res : List Msg) (r : Msg),
      DataWriter.query db ft sid none none = .ok res0 → r ∈ res0 →
      dget r "timestamp" = none →
      DataWriter.query db ft sid none (some env) = .ok res → r ∈ res) := by
  refine ⟨fun db sid st en => rfl, fun db ft st en => rfl,
          fun db ft sid en => rfl, fun db ft sid st => rfl, ?_, ?_, ?_, ?_⟩
  · intro db ftv sid st en res r hne hnone h hr
    have hie : ftv.isEmpty = false := by
      rw [← Bool.not_eq_true, String.isEmpty_iff]
      exact hne
    have hft := (query_ok_mem h hr).2.1 (by simp [truthy, hie])
    simp [hnone] at hft
  · intro db sv ft st en res r hne hnone h hr
    have hie : sv.isEmpty = false := by
      rw [← Bool.not_eq_true, String.isEmpty_iff]
      exact hne
    have hsid := (query_ok_mem h hr).2.2.1 (by simp [truthy, hie])
    simp [hnone] at hsid
  · intro db stv ft sid en res r hne hnone h hr
    have hie : stv.isEmpty = false := by
      rw [← Bool.not_eq_true, String.isEmpty_iff]
      exact hne
    have hst := (query_ok_mem h hr).2.2.2.1 (by simp [truthy, hie])
    rw [hnone] at hst
    have : DataWriter.pyGe none ((some stv).getD "") = .ok (pyLe stv "") := rfl
    rw [this, pyLe_to_empty_false stv hne] at hst
    exact absurd (Except.ok.inj hst) (by simp)
  · intro db env ft sid res0 res r h0 hr0 hnone h
    have he0 : DataWriter.query db ft sid none none =
        .ok (DataWriter.eqStages db ft sid) := rfl
    rw [he0] at h0
    have hres0 : res0 = DataWriter.eqStages db ft sid :=
      (Except.ok.inj h0).symm
    subst hres0
    have hu : DataWriter.query db ft sid none (some env) =
        (if truthy (some env) then
          DataWriter.filterE
            (fun r => DataWriter.pyLeStop (dget r "timestamp")
              ((some env).getD "")) (DataWriter.eqStages db ft sid)
        else .ok (DataWriter.eqStages db ft sid)) := rfl
    rw [hu] at h
    by_cases hen : truthy (some env) = true
    · rw [if_pos hen] at h
      refine mem_filterE_ok h hr0 ?_
      rw [hnone]
      show Except.ok (pyLe "" env) = Except.ok true
      rw [pyLe_empty_left]
    · rw [if_neg hen] at h
      simp only [Except.ok.injEq] at h
      subst h
      exact hr0

/-- Witness for C10: with a `feature_type = "A"` filter, the record
lacking that field is excluded from the returned list; and a record
without a timestamp survives an `end` bound. -/
theorem c10_witness :
    ([("sensor_id", JVal.s "s1")] : Msg) ∉
        [[("feature_type", JVal.s "A")]] ∧
    ([("feature_type", JVal.s "A")] : Msg) ∈
        [[("feature_type", JVal.s "A")]] := by
  constructor
  · exact c10_query_edge_cases.2.2.2.2.1
      [[("feature_type", JVal.s "A")], [("sensor_id", JVal.s "s1")]]
      "A" none none none [[("feature_type", JVal.s "A")]]
      [("sensor_id", JVal.s "s1")] (by decide) rfl rfl
  · exact c10_query_edge_cases.2.2.2.2.2.2.2
      [[("feature_type", JVal.s "A")]] "2024" none none
      [[("feature_type", JVal.s "A")]] [[("feature_type", JVal.s "A")]]
      [("feature_type", JVal.s "A")] rfl (List.mem_singleton_self _) rfl rfl

/-! ## Broker lemmas -/

theorem lookupT_publishWork (b : Broker) (q : String) (m : Msg) (t : String) :
    (b.publishWork q m).lookupT t = b.lookupT t := rfl

theorem lookupT_consumeWork (b : Broker) (q t : String) :
    (b.consumeWork q).2.lookupT t = b.lookupT t := by
  unfold Broker.consumeWork
  rcases b.lookupQ q with - | ⟨m, rest⟩ <;> rfl

theorem lookupT_publishFanout (b : Broker) (t' : String) (m : Msg) (t : String) :
    (b.publishFanout t' m).lookupT t = b.lookupT t := rfl

theorem lookupT_subscribeFanout (b : Broker) (t' t : String) :
    (b.subscribeFanout t').2.lookupT t =
      if t' = t then b.lookupT t ++ [b.inboxes.length] else b.lookupT t := by
  unfold Broker.subscribeFanout Broker.lookupT
  by_cases h : t' = t
  · subst h
    simp [lookup_aset_self]
  · simp [lookup_aset_ne _ _ _ _ (fun he => h he.symm), h]

theorem inboxes_publishWork (b : Broker) (q : String) (m : Msg) :
    (b.publishWork q m).inboxes = b.inboxes := rfl

theorem inboxes_consumeWork (b : Broker) (q : String) :
    (b.consumeWork q).2.inboxes = b.inboxes := by
  unfold Broker.consumeWork
  rcases b.lookupQ q with - | ⟨m, rest⟩ <;> rfl

theorem inboxes_subscribeFanout (b : Broker) (t : String) :
    (b.subscribeFanout t).2.inboxes = b.inboxes ++ [[]] := rfl

theorem inboxes_publishFanout (b : Broker) (t : String) (m : Msg) :
    (b.publishFanout t m).inboxes = Broker.pushAll (b.lookupT t) m b.inboxes := rfl

theorem WF_applyOp {b : Broker} (h : b.WF) (op : BOp) : (applyOp b op).WF := by
  obtain ⟨hnd, hdisj, hlt⟩ := h
  cases op with
  | pubW q m =>
    exact ⟨fun t => hnd t, fun t t' ht => hdisj t t' ht, fun t i hi => hlt t i hi⟩
  | consW q =>
    refine ⟨fun t => ?_, fun t t' ht => ?_, fun t i hi => ?_⟩
    · rw [applyOp, lookupT_consumeWork]; exact hnd t
    · rw [applyOp, lookupT_consumeWork, lookupT_consumeWork]; exact hdisj t t' ht
    · rw [applyOp, lookupT_consumeWork] at hi
      rw [applyOp, inboxes_consumeWork]
      exact hlt t i hi
  | pubF t0 m =>
    refine ⟨fun t => ?_, fun t t' ht => ?_, fun t i hi => ?_⟩
    · rw [applyOp, lookupT_publishFanout]; exact hnd t
    · rw [applyOp, lookupT_publishFanout, lookupT_publishFanout]; exact hdisj t t' ht
    · rw [applyOp, lookupT_publishFanout] at hi
      rw [applyOp, inboxes_publishFanout, length_pushAll]
      exact hlt t i hi
  | subF t0 =>
    refine ⟨fun t => ?_, fun t t' ht => ?_, fun t i hi => ?_⟩
    · rw [applyOp, lookupT_subscribeFanout]
      by_cases h0 : t0 = t
      · rw [if_pos h0]
        refine List.Nodup.append (hnd t) (List.nodup_singleton _) ?_
        intro i hi hi'
        rw [List.mem_singleton] at hi'
        have := hlt t i hi
        omega
      · rw [if_neg h0]; exact hnd t
    · rw [applyOp, lookupT_subscribeFanout, lookupT_subscribeFanout]
      by_cases h0 : t0 = t <;> by_cases h0' : t0 = t'
      · exact absurd (h0 ▸ h0') ht
      · rw [if_pos h0, if_neg h0']
        intro i hi hi'
        rcases List.mem_append.mp hi with h1 | h1
        · exact hdisj t t' ht h1 hi'
        · rw [List.mem_singleton] at h1
          subst h1
          exact absurd (hlt t' _ hi') (by omega)
      · rw [if_neg h0, if_pos h0']
        intro i hi hi'
        rcases List.mem_append.mp hi' with h1 | h1
        · exact hdisj t t' ht hi h1
        · rw [List.mem_singleton] at h1
          subst h1
          exact absurd (hlt t _ hi) (by omega)
      · rw [if_neg h0, if_neg h0']
        exact hdisj t t' ht
    · rw [applyOp, lookupT_subscribeFanout] at hi
      rw [applyOp, inboxes_subscribeFanout, List.length_append,
          List.length_singleton]
      by_cases h0 : t0 = t
      · rw [if_pos h0] at hi
        rcases List.mem_append.mp hi with h1 | h1
        · have := hlt t i h1; omega
        · rw [List.mem_singleton] at h1; omega
      · rw [if_neg h0] at hi
        have := hlt t i hi; omega

theorem WF_runOps (ops : List BOp) (b : Broker) (h : b.WF) : (runOps b ops).WF := by
  induction ops generalizing b with
  | nil => exact h
  | cons op rest ih =>
    simp only [runOps, List.foldl_cons]
    exact ih _ (WF_applyOp h op)

theorem WF_init : Broker.init.WF := by
  refine ⟨fun t => ?_, fun t t' _ => ?_, fun t i hi => ?_⟩
  · exact List.Pairwise.nil
  · intro i hi
    simp [Broker.lookupT, Broker.init, List.lookup] at hi
  · simp [Broker.lookupT, Broker.init, List.lookup] at hi

theorem inbox_run_ops {b : Broker} (h : b.WF) {t : String} {i : Nat}
    (hi : i ∈ b.lookupT t) (ops : List BOp) :
    (runOps b ops).inboxes.getD i [] = b.inboxes.getD i [] ++ pubsTo t ops := by
  induction ops generalizing b with
  | nil => simp [runOps, pubsTo]
  | cons op rest ih =>
    simp only [runOps, List.foldl_cons] at *
    cases op with
    | pubW q m =>
      rw [ih (WF_applyOp h _) (by rw [applyOp, lookupT_publishWork]; exact hi)]
      rfl
    | consW q =>
      rw [ih (WF_applyOp h _) (by rw [applyOp, lookupT_consumeWork]; exact hi)]
      rw [applyOp, inboxes_consumeWork]
      rfl
    | subF t0 =>
      have hi' : i ∈ (applyOp b (BOp.subF t0)).lookupT t := by
        rw [applyOp, lookupT_subscribeFanout]
        by_cases h0 : t0 = t
        · rw [if_pos h0]; exact List.mem_append_left _ hi
        · rw [if_neg h0]; exact hi
      rw [ih (WF_applyOp h _) hi']
      rw [applyOp, inboxes_subscribeFanout,
          List.getD_append _ _ _ _ (h.2.2 t i hi)]
      rfl
    | pubF t0 m =>
      have hi' : i ∈ (applyOp b (BOp.pubF t0 m)).lookupT t := by
        rw [applyOp, lookupT_publishFanout]; exact hi
      rw [ih (WF_applyOp h _) hi']
      rw [applyOp, inboxes_publishFanout]
      by_cases h0 : t0 = t
      · subst h0
        rw [getD_pushAll_mem m b.inboxes (h.1 t0) hi (h.2.2 t0 i hi)]
        simp [pubsTo]
      · rw [getD_pushAll_not_mem m b.inboxes
              (fun hmem => h.2.1 t0 t h0 hmem hi)]
        simp [pubsTo, h0]

/-! ## Claim C3 -/

/-- **C3** (confirmed).  Fan-out delivery invariant: a subscriber
registered by `subscribe_fanout` receives, across any later sequence of
broker operations, exactly the messages subsequently published to its
topic, one copy each, in publish order — and none published before its
registration (its inbox starts empty); publishing to a topic with zero
subscribers leaves the broker unchanged (no error, message dropped).
Every state reachable from a fresh broker satisfies the well-formedness
hypothesis. -/
theorem c3_fanout_delivery :
    (∀ (b : Broker), b.WF → ∀ (t : String) (ops : List BOp),
      (runOps (b.subscribeFanout t).2 ops).inboxes.getD (b.subscribeFanout t).1 [] =
        pubsTo t ops) ∧
    (∀ (b : Broker) (t : String) (m : Msg),
      b.fanoutSubscriberCount t = 0 → b.publishFanout t m = b) ∧
    (∀ ops : List BOp, (runOps Broker.init ops).WF) := by
  refine ⟨?_, ?_, fun ops => WF_runOps ops Broker.init WF_init⟩
  · intro b hWF t ops
    have hWF1 : (b.subscribeFanout t).2.WF := WF_applyOp hWF (BOp.subF t)
    have hi : (b.subscribeFanout t).1 ∈ (b.subscribeFanout t).2.lookupT t := by
      rw [lookupT_subscribeFanout, if_pos rfl]
      exact List.mem_append_right _ (List.mem_singleton_self _)
    rw [inbox_run_ops hWF1 hi ops, inboxes_subscribeFanout]
    have hlen : (b.subscribeFanout t).1 = b.inboxes.length := rfl
    rw [hlen, List.getD_append_right _ _ _ _ (Nat.le_refl _)]
    simp
  · intro b t m hcount
    rw [Broker.fanoutSubscriberCount, List.length_eq_zero] at hcount
    rw [Broker.publishFanout, hcount, pushAll_nil]

/-- Witness for C3: on a fresh broker, one subscriber then two publishes
to its topic yield exactly those two messages, in order, in its inbox;
and a publish to a topic with no subscriber is a no-op. -/
theorem c3_witness :
    (runOps (Broker.init.subscribeFanout FEATURES_A).2
        [BOp.pubF FEATURES_A [("k", JVal.s "v1")],
         BOp.pubF FEATURES_A [("k", JVal.s "v2")]]).inboxes.getD
        (Broker.init.subscribeFanout FEATURES_A).1 [] =
      [[("k", JVal.s "v1")], [("k", JVal.s "v2")]] ∧
    Broker.init.publishFanout FEATURES_B [("k", JVal.s "v")] = Broker.init := by
  constructor
  · exact c3_fanout_delivery.1 Broker.init WF_init FEATURES_A
      [BOp.pubF FEATURES_A [("k", JVal.s "v1")],
       BOp.pubF FEATURES_A [("k", JVal.s "v2")]]
  · exact c3_fanout_delivery.2.1 Broker.init FEATURES_B [("k", JVal.s "v")] rfl

/-! ## Claim C4 -/

theorem lookupQ_publishWork_self (b : Broker) (q : String) (m : Msg) :
    (b.publishWork q m).lookupQ q = b.lookupQ q ++ [m] := by
  unfold Broker.publishWork Broker.lookupQ
  rw [lookup_aset_self]
  rfl

theorem publishAll_pending (b : Broker) (q : String) (msgs : List Msg) :
    (publishAll b q msgs).lookupQ q = b.lookupQ q ++ msgs := by
  induction msgs generalizing b with
  | nil => simp [publishAll]
  | cons m rest ih =>
    simp only [publishAll, List.foldl_cons] at *
    rw [ih, lookupQ_publishWork_self, List.append_assoc]
    rfl

theorem drainK_take_drop (q : String) (k : Nat) (b : Broker) :
    (drainK b q k).1 = (b.lookupQ q).take k ∧
      (drainK b q k).2.lookupQ q = (b.lookupQ q).drop k := by
  induction k generalizing b with
  | zero => exact ⟨rfl, rfl⟩
  | succ k ih =>
    rcases hq : b.lookupQ q with - | ⟨m, rest⟩
    · have hc : b.consumeWork q = (none, { b with work := aset b.work q [] }) := by
        unfold Broker.consumeWork
        rw [hq]
      constructor
      · simp [drainK, hc, hq]
      · simp only [drainK, hc, hq]
        show ({ b with work := aset b.work q [] } : Broker).lookupQ q = List.drop (k+1) []
        unfold Broker.lookupQ
        rw [lookup_aset_self]
        simp
    · have hc : b.consumeWork q = (some m, { b with work := aset b.work q rest }) := by
        unfold Broker.consumeWork
        rw [hq]
      have hrest : ({ b with work := aset b.work q rest } : Broker).lookupQ q = rest := by
        unfold Broker.lookupQ
        rw [lookup_aset_self]
        rfl
      obtain ⟨ih1, ih2⟩ := ih { b with work := aset b.work q rest }
      constructor
      · simp only [drainK, hc, hq]
        rw [List.take_succ_cons]
        show m :: (drainK _ q k).1 = m :: List.take k rest
        rw [ih1, hrest]
      · simp only [drainK, hc, hq]
        show (drainK _ q k).2.lookupQ q = List.drop (k+1) (m :: rest)
        rw [ih2, hrest, List.drop_succ_cons]

/-- **C4** (confirmed).  Work-queue exactly-once FIFO drain: publishing a
batch appends it to the pending list; `k` successive consumes deliver
exactly the first `k` pending messages in FIFO order and leave the rest;
hence after publishing `N` messages to an empty queue, any `k ≥ N`
consume calls (split among any number of competing consumers, whose
interleaved calls these are) deliver exactly the `N` messages, each once,
leaving the queue empty; and `consume_work` with `timeout=0` on an empty
queue returns the empty result rather than raising. -/
theorem c4_workqueue_fifo_exactly_once :
    (∀ (b : Broker) (q : String) (msgs : List Msg),
      (publishAll b q msgs).lookupQ q = b.lookupQ q ++ msgs) ∧
    (∀ (b : Broker) (q : String) (k : Nat),
      (drainK b q k).1 = (b.lookupQ q).take k ∧
        (drainK b q k).2.lookupQ q = (b.lookupQ q).drop k) ∧
    (∀ (b : Broker) (q : String) (msgs : List Msg) (k : Nat),
      b.lookupQ q = [] → msgs.length ≤ k →
      (drainK (publishAll b q msgs) q k).1 = msgs ∧
        (drainK (publishAll b q msgs) q k).2.workQueueDepth q = 0) ∧
    (∀ (b : Broker) (q : String),
      b.lookupQ q = [] → (b.consumeWork q).1 = none) := by
  refine ⟨publishAll_pending, fun b q k => drainK_take_drop q k b, ?_, ?_⟩
  · intro b q msgs k hempty hk
    have hpend : (publishAll b q msgs).lookupQ q = msgs := by
      rw [publishAll_pending, hempty, List.nil_append]
    obtain ⟨h1, h2⟩ := drainK_take_drop q k (publishAll b q msgs)
    constructor
    · rw [h1, hpend, List.take_of_length_le hk]
    · rw [Broker.workQueueDepth, h2, hpend, List.drop_of_length_le hk]
      rfl
  · intro b q hempty
    unfold Broker.consumeWork
    rw [hempty]

/-- Witness for C4: two published messages are delivered exactly once
each, in order, by three consume calls, and the queue ends empty. -/
theorem c4_witness :
    (drainK (publishAll Broker.init AUDIO_STREAM
        [[("id", JVal.s "1")], [("id", JVal.s "2")]]) AUDIO_STREAM 3).1 =
      [[("id", JVal.s "1")], [("id", JVal.s "2")]] ∧
    (drainK (publishAll Broker.init AUDIO_STREAM
        [[("id", JVal.s "1")], [("id", JVal.s "2")]]) AUDIO_STREAM 3).2.workQueueDepth
        AUDIO_STREAM = 0 ∧
    (Broker.init.consumeWork AUDIO_STREAM).1 = none := by
  refine ⟨?_, ?_, c4_workqueue_fifo_exactly_once.2.2.2 Broker.init AUDIO_STREAM rfl⟩
  · exact (c4_workqueue_fifo_exactly_once.2.2.1 Broker.init AUDIO_STREAM
      [[("id", JVal.s "1")], [("id", JVal.s "2")]] 3 rfl (by decide)).1
  · exact (c4_workqueue_fifo_exactly_once.2.2.1 Broker.init AUDIO_STREAM
      [[("id", JVal.s "1")], [("id", JVal.s "2")]] 3 rfl (by decide)).2

/-! ## Claim C5 -/

/-- **C5 counterexample**: `purge_all` does *not* leave fan-out
subscriptions intact.  A topic with one subscriber has zero subscribers
after `purge_all`, and a publish after the purge no longer reaches the
pre-purge subscriber's queue. -/
theorem c5_counterexample :
    (Broker.init.subscribeFanout FEATURES_A).2.fanoutSubscriberCount FEATURES_A = 1 ∧
    ((Broker.init.subscribeFanout FEATURES_A).2.purgeAll).fanoutSubscriberCount
        FEATURES_A = 0 ∧
    (((Broker.init.subscribeFanout FEATURES_A).2.purgeAll).publishFanout FEATURES_A
        [("k", JVal.s "v")]).inboxes.getD
        (Broker.init.subscribeFanout FEATURES_A).1 [] = [] :=
  ⟨rfl, rfl, rfl⟩

/-- **C5 (amended)**: `purge_all` clears all work-queue contents *and*
removes every fan-out subscription: afterwards every queue depth is 0,
every topic's subscriber count is 0, and publishing delivers to no queue
(in particular not to any queue subscribed before the purge). -/
theorem c5_purge_clears_queues_and_subscriptions :
    (∀ (b : Broker) (q : String), b.purgeAll.workQueueDepth q = 0) ∧
    (∀ (b : Broker) (t : String), b.purgeAll.fanoutSubscriberCount t = 0) ∧
    (∀ (b : Broker) (t : String) (m : Msg),
      b.purgeAll.publishFanout t m = b.purgeAll) :=
  ⟨fun _ _ => rfl, fun _ _ => rfl, fun _ _ _ => rfl⟩

/-! ## Stage validation lemmas -/

theorem validateA_ok_iff (m : Msg) :
    validateA m = .ok () ↔
      ((hasKey m "message_id" && hasKey m "sensor_id" &&
        hasKey m "timestamp" && hasKey m "audio_data") = true ∧
       jvalFalsy ((dget m "audio_data").getD (JVal.s "")) = false ∧
       ∃ ts, dget m "timestamp" = some (JVal.s ts) ∧
         pyFromIso ⟨replaceZ ts.data⟩ = true) := by
  constructor
  · intro h
    cases hb : (hasKey m "message_id" && hasKey m "sensor_id" &&
        hasKey m "timestamp" && hasKey m "audio_data") with
    | false => simp [validateA, hb] at h
    | true =>
      cases hf : jvalFalsy ((dget m "audio_data").getD (JVal.s "")) with
      | true => simp [validateA, hb, hf] at h
      | false =>
        rcases hts : dget m "timestamp" with - | v
        · simp [validateA, hb, hf, hts] at h
        · rcases v with ts | sd | fb
          · cases hiso : pyFromIso ⟨replaceZ ts.data⟩ with
            | false => simp [validateA, hb, hf, hts, hiso] at h
            | true => exact ⟨rfl, rfl, ts, rfl, hiso⟩
          · simp [validateA, hb, hf, hts] at h
          · simp [validateA, hb, hf, hts] at h
  · rintro ⟨hb, hf, ts, hts, hiso⟩
    simp [validateA, hb, hf, hts, hiso]

theorem validateA_error_eq {m : Msg} {e : PyErr}
    (h : validateA m = .error e) : e = .valueError := by
  unfold validateA at h
  cases hb : (hasKey m "message_id" && hasKey m "sensor_id" &&
      hasKey m "timestamp" && hasKey m "audio_data") with
  | false => simp [hb] at h; exact h.symm
  | true =>
    cases hf : jvalFalsy ((dget m "audio_data").getD (JVal.s "")) with
    | true => simp [hb, hf] at h; exact h.symm
    | false =>
      rcases hts : dget m "timestamp" with - | v
      · simp [hb, hf, hts] at h; exact h.symm
      · rcases v with ts | sd | fb
        · cases hiso : pyFromIso ⟨replaceZ ts.data⟩ with
          | false => simp [hb, hf, hts, hiso] at h; exact h.symm
          | true => simp [hb, hf, hts, hiso] at h
        · simp [hb, hf, hts] at h; exact h.symm
        · simp [hb, hf, hts] at h; exact h.symm

theorem validateB_ok_iff (m : Msg) :
    validateB m = .ok () ↔
      ((hasKey m "message_id" && hasKey m "sensor_id" && hasKey m "timestamp" &&
        hasKey m "feature_type" && hasKey m "features") = true ∧
       dget m "feature_type" = some (JVal.s "A")) := by
  constructor
  · intro h
    cases hb : (hasKey m "message_id" && hasKey m "sensor_id" && hasKey m "timestamp" &&
        hasKey m "feature_type" && hasKey m "features") with
    | false => simp [validateB, hb] at h
    | true =>
      by_cases he : dget m "feature_type" = some (JVal.s "A")
      · exact ⟨rfl, he⟩
      · have : (dget m "feature_type" != some (JVal.s "A")) = true := by
          simpa using he
        simp [validateB, hb, this] at h
  · rintro ⟨hb, he⟩
    simp [validateB, hb, he]

theorem validateB_valueError_iff (m : Msg) :
    validateB m = .error .valueError ↔
      (hasKey m "message_id" && hasKey m "sensor_id" && hasKey m "timestamp" &&
       hasKey m "feature_type" && hasKey m "features") = false := by
  constructor
  · intro h
    cases hb : (hasKey m "message_id" && hasKey m "sensor_id" && hasKey m "timestamp" &&
        hasKey m "feature_type" && hasKey m "features") with
    | false => rfl
    | true =>
      by_cases he : dget m "feature_type" = some (JVal.s "A")
      · simp [validateB, hb, he] at h
      · have hne : (dget m "feature_type" != some (JVal.s "A")) = true := by
          simpa using he
        simp [validateB, hb, hne] at h
  · intro hb
    simp [validateB, hb]

theorem validateB_typeError_iff (m : Msg) :
    validateB m = .error .typeError ↔
      ((hasKey m "message_id" && hasKey m "sensor_id" && hasKey m "timestamp" &&
        hasKey m "feature_type" && hasKey m "features") = true ∧
       dget m "feature_type" ≠ some (JVal.s "A")) := by
  constructor
  · intro h
    cases hb : (hasKey m "message_id" && hasKey m "sensor_id" && hasKey m "timestamp" &&
        hasKey m "feature_type" && hasKey m "features") with
    | false => simp [validateB, hb] at h
    | true =>
      by_cases he : dget m "feature_type" = some (JVal.s "A")
      · simp [validateB, hb, he] at h
      · exact ⟨rfl, he⟩
  · rintro ⟨hb, he⟩
    have hne : (dget m "feature_type" != some (JVal.s "A")) = true := by
      simpa using he
    simp [validateB, hb, hne]

theorem fanout_consumeWork (b : Broker) (q : String) :
    (b.consumeWork q).2.fanout = b.fanout := by
  unfold Broker.consumeWork
  rcases b.lookupQ q with - | ⟨m, rest⟩ <;> rfl

/-! ## Claim C7 -/

/-- **C7 counterexample**: Stage-B does *not* validate timestamps.  A
Feature-A-shaped message whose timestamp is the unparsable string
`"not-a-date"` (Stage-A's own validator rejects exactly this string)
passes `algorithm_b._validate` and is processed successfully, where the
claim demands a ValidationError for an unparsable timestamp at every
stage processor. -/
theorem c7_counterexample :
    pyFromIso ⟨replaceZ "not-a-date".data⟩ = false ∧
    validateA [("message_id", JVal.s "m1"), ("sensor_id", JVal.s "s1"),
               ("timestamp", JVal.s "not-a-date"), ("audio_data", JVal.s "QUJD")] =
      .error .valueError ∧
    validateB [("message_id", JVal.s "f1"), ("sensor_id", JVal.s "s1"),
               ("timestamp", JVal.s "not-a-date"), ("feature_type", JVal.s "A"),
               ("features", JVal.featA 0)] = .ok () ∧
    processB "u0" "t0"
        [("message_id", JVal.s "f1"), ("sensor_id", JVal.s "s1"),
         ("timestamp", JVal.s "not-a-date"), ("feature_type", JVal.s "A"),
         ("features", JVal.featA 0)] =
      .ok [("message_id", JVal.s "u0"), ("source_message_id", JVal.s "f1"),
           ("feature_type", JVal.s "B"), ("sensor_id", JVal.s "s1"),
           ("timestamp", JVal.s "not-a-date"), ("processed_at", JVal.s "t0"),
           ("features", JVal.featB (JVal.featA 0))] :=
  ⟨rfl, rfl, rfl, rfl⟩

/-- **C7 (amended)**.  Validation error taxonomy, per stage: Stage-A's
validator fails — always with `ValueError` (the spec's ValidationError) —
exactly when a required field is missing, `audio_data` is falsy, or the
timestamp is not a parsable string; Stage-B's validator raises
`ValueError` exactly when a required field is missing and `TypeError`
(TypeMismatchError) exactly when all fields are present but
`feature_type ≠ "A"` — Stage-B does not inspect the timestamp.  Either
`process` propagates its validator's error, and a failed `process_one`
leaves the stage state exactly as the preceding consume left it: nothing
is published (no fan-out queue or topic is touched — `consume_work`
itself alters no fan-out state) and the counter is unchanged; the Writer
store is not an input of `process` at all. -/
theorem c7_validation_taxonomy_and_frame :
    (∀ m : Msg, validateA m = .ok () ↔
      ((hasKey m "message_id" && hasKey m "sensor_id" &&
        hasKey m "timestamp" && hasKey m "audio_data") = true ∧
       jvalFalsy ((dget m "audio_data").getD (JVal.s "")) = false ∧
       ∃ ts, dget m "timestamp" = some (JVal.s ts) ∧
         pyFromIso ⟨replaceZ ts.data⟩ = true)) ∧
    (∀ (m : Msg) (e : PyErr), validateA m = .error e → e = .valueError) ∧
    (∀ m : Msg, validateB m = .error .valueError ↔
      (hasKey m "message_id" && hasKey m "sensor_id" && hasKey m "timestamp" &&
       hasKey m "feature_type" && hasKey m "features") = false) ∧
    (∀ m : Msg, validateB m = .error .typeError ↔
      ((hasKey m "message_id" && hasKey m "sensor_id" && hasKey m "timestamp" &&
        hasKey m "feature_type" && hasKey m "features") = true ∧
       dget m "feature_type" ≠ some (JVal.s "A"))) ∧
    (∀ (u n : String) (m : Msg) (e : PyErr),
      validateA m = .error e → processA u n m = .error e) ∧
    (∀ (u n : String) (m : Msg) (e : PyErr),
      validateB m = .error e → processB u n m = .error e) ∧
    (∀ (g1 g2 : Nat → String) (st : StA) (e : PyErr),
      (processOneA g1 g2 st).1 = .error e →
      (processOneA g1 g2 st).2 =
        { st with broker := (st.broker.consumeWork AUDIO_STREAM).2 }) ∧
    (∀ (g1 g2 : Nat → String) (st : StB) (e : PyErr),
      (processOneB g1 g2 st).1 = .error e →
      (processOneB g1 g2 st).2 =
        { st with broker := (st.broker.popInbox st.inbox).2 }) ∧
    (∀ (b : Broker) (q : String),
      (b.consumeWork q).2.inboxes = b.inboxes ∧
      (b.consumeWork q).2.fanout = b.fanout) := by
  refine ⟨validateA_ok_iff, fun m e => validateA_error_eq,
          validateB_valueError_iff, validateB_typeError_iff,
          ?_, ?_, ?_, ?_,
          fun b q => ⟨inboxes_consumeWork b q, fanout_consumeWork b q⟩⟩
  · intro u n m e h
    simp [processA, h]
  · intro u n m e h
    simp [processB, h]
  · intro g1 g2 st e h
    unfold processOneA at h ⊢
    rcases hc : st.broker.consumeWork AUDIO_STREAM with ⟨mo, b1⟩
    rw [hc] at h
    rcases mo with - | m
    · simp at h
    · rcases hp : processA (g1 st.fresh) (g2 st.fresh) m with e' | rec
      · simp [hp]
      · simp [hp] at h
  · intro g1 g2 st e h
    unfold processOneB at h ⊢
    rcases hc : st.broker.popInbox st.inbox with ⟨mo, b1⟩
    rw [hc] at h
    rcases mo with - | m
    · simp at h
    · rcases hp : processB (g1 st.fresh) (g2 st.fresh) m with e' | rec
      · simp [hp]
      · simp [hp] at h

/-- Witness for C7: a complete, parsable Audio message validates; a
message consisting only of a `message_id` fails Stage-A's `process` with
`ValueError`; a wrongly tagged but complete record fails Stage-B's
validator with `TypeError`. -/
theorem c7_witness :
    validateA [("message_id", JVal.s "m1"), ("sensor_id", JVal.s "s1"),
               ("timestamp", JVal.s "2024-01-15T10:30:00Z"),
               ("audio_data", JVal.s "QUJD")] = .ok () ∧
    processA "u" "n" [("message_id", JVal.s "x")] = .error .valueError ∧
    validateB [("message_id", JVal.s "f1"), ("sensor_id", JVal.s "s1"),
               ("timestamp", JVal.s "2024-01-15T10:30:00Z"),
               ("feature_type", JVal.s "B"), ("features", JVal.featA 3)] =
      .error .typeError := by
  refine ⟨?_, ?_, ?_⟩
  · exact (c7_validation_taxonomy_and_frame.1 _).mpr
      ⟨rfl, rfl, "2024-01-15T10:30:00Z", rfl, rfl⟩
  · exact c7_validation_taxonomy_and_frame.2.2.2.2.1 "u" "n"
      [("message_id", JVal.s "x")] .valueError rfl
  · exact (c7_validation_taxonomy_and_frame.2.2.2.1 _).mpr ⟨rfl, by decide⟩

/-! ## Claim C9 -/

/-- **C9** (confirmed).  Transformation determinism: two successful
`process` runs on the same input, with different freshly generated
`uuid4()` / `datetime.now()` values, agree on every field other than
`message_id` and `processed_at` — in particular on the `features`
payload, which is a function of the input alone (`audio_data`'s seed for
Stage-A, the input's `features` entry for Stage-B). -/
theorem c9_process_deterministic :
    (∀ (m : Msg) (u1 t1 u2 t2 : String) (r1 r2 : Msg),
      processA u1 t1 m = .ok r1 → processA u2 t2 m = .ok r2 →
      dropFresh r1 = dropFresh r2 ∧
        dget r1 "features" = dget r2 "features") ∧
    (∀ (m : Msg) (u1 t1 u2 t2 : String) (r1 r2 : Msg),
      processB u1 t1 m = .ok r1 → processB u2 t2 m = .ok r2 →
      dropFresh r1 = dropFresh r2 ∧
        dget r1 "features" = dget r2 "features") := by
  constructor
  · intro m u1 t1 u2 t2 r1 r2 h1 h2
    rcases hv : validateA m with e | u
    · simp [processA, hv] at h1
    · rcases ha : dget m "audio_data" with - | av
      · simp [processA, hv, ha] at h1
      · rcases av with a | sd | fb
        · cases hdec : b64Decodable a with
          | false => simp [processA, hv, ha, hdec] at h1
          | true =>
            simp only [processA, hv, ha, hdec, if_true, Except.ok.injEq] at h1 h2
            subst h1
            subst h2
            exact ⟨rfl, rfl⟩
        · simp [processA, hv, ha] at h1
        · simp [processA, hv, ha] at h1
  · intro m u1 t1 u2 t2 r1 r2 h1 h2
    rcases hv : validateB m with e | u
    · simp [processB, hv] at h1
    · rcases ha : dget m "features" with - | fv
      · simp [processB, hv, ha] at h1
      · rcases fv with a | sd | fb
        · simp [processB, hv, ha] at h1
        · simp only [processB, hv, ha, Except.ok.injEq] at h1 h2
          subst h1
          subst h2
          exact ⟨rfl, rfl⟩
        · simp only [processB, hv, ha, Except.ok.injEq] at h1 h2
          subst h1
          subst h2
          exact ⟨rfl, rfl⟩

/-- Witness for C9: Stage-A processing of one Audio message under two
different fresh-value pairs agrees on everything but `message_id` and
`processed_at`. -/
theorem c9_witness :
    dropFresh ([("message_id", JVal.s "uA"), ("source_message_id", JVal.s "m1"),
                ("feature_type", JVal.s "A"), ("sensor_id", JVal.s "s1"),
                ("timestamp", JVal.s "2024-01-15T10:30:00Z"),
                ("processed_at", JVal.s "tA"),
                ("features", JVal.featA 198)]) =
      dropFresh ([("message_id", JVal.s "uB"), ("source_message_id", JVal.s "m1"),
                  ("feature_type", JVal.s "A"), ("sensor_id", JVal.s "s1"),
                  ("timestamp", JVal.s "2024-01-15T10:30:00Z"),
                  ("processed_at", JVal.s "tB"),
                  ("features", JVal.featA 198)]) :=
  (c9_process_deterministic.1
    [("message_id", JVal.s "m1"), ("sensor_id", JVal.s "s1"),
     ("timestamp", JVal.s "2024-01-15T10:30:00Z"), ("audio_data", JVal.s "QUJD")]
    "uA" "tA" "uB" "tB" _ _ rfl rfl).1

/-! ## Claim C8 -/

theorem lookupQ_publishFanout (b : Broker) (t : String) (m : Msg) (q : String) :
    (b.publishFanout t m).lookupQ q = b.lookupQ q := rfl

theorem lookupT_popInbox (b : Broker) (i : Nat) (t : String) :
    (b.popInbox i).2.lookupT t = b.lookupT t := by
  unfold Broker.popInbox
  rcases b.inboxes.getD i [] with - | ⟨m, rest⟩ <;> rfl

